import Mathlib

/-!
Shallow embedding of the codex-go wrapper library (packages codex.go,
login.go, and the invoke/options file) together with theorems checking the
natural-language specification against it.

Modelling conventions:
- Go pointer-typed optional fields (`*string`, `*bool`) and the nilable
  `map[string]any` become `Option` fields; `nil` is `none`.
- A Go `InvokeOption` is `func(*invokeOptions) error`: it may mutate the
  struct and may return an error.  We embed it as a state-passing function
  returning the (possibly updated) struct together with an optional error
  message.
- `exec.Cmd` is embedded as a record of the observable fields the wrapper
  touches: path, argument list, working directory (Go zero value is the
  empty string), the stderr sink, and the environment (Go `nil` env means
  "inherit", embedded as `none`).  The writer type is an abstract `W`.
- `os.Environ()` is passed in explicitly as `environ : List String`.
- Running a subprocess (`cmd.Run`) and the MCP session (connect + CallTool)
  are external effects; they are passed to `Login`/`Invoke` as oracles.
  Connect errors and CallTool errors are both propagated verbatim by the
  source, so the session oracle merges them into one `Except`.
- The `map[string]any` argument map of the tool call is embedded as an
  association list with string keys in insertion order; the dynamic `any`
  values are a small tagged union `GoValue`.
- `res.Content[0]` on an empty slice panics in Go; the embedding returns
  `none` from `interpretResult` in that case, so `none` marks the
  out-of-range failure branch.
- The `authMutex` of `Login` is modelled separately by an event-trace
  semantics (`LoginEvent`, `loginTrace`, `mutexOk`, `Interleaving`).
-/

namespace CodexGo

/-- Dynamic Go values (`any`) that the wrapper ever places into the tool-call
argument map: strings, booleans, and the nested config map. -/
inductive GoValue where
  | str : String → GoValue
  | bool : Bool → GoValue
  | configMap : List (String × GoValue) → GoValue

/-- The client struct `Codex` from codex.go: executable path, optional log
writer and log level.  The writer type `W` is abstract. -/
structure Codex (W : Type) where
  executablePath : String := "codex"
  logWriter : Option W := none
  logLevel : String := "info"

/-- A `CodexOption` mutates the client during `New`. -/
abbrev CodexOption (W : Type) := Codex W → Codex W

/-- `SetExecutablePath` from codex.go. -/
def Codex.SetExecutablePath {W : Type} (codex : Codex W) (path : String) : Codex W :=
  { codex with executablePath := path }

/-- `SetLogger` from codex.go; the Go writer is nilable, hence `Option W`. -/
def Codex.SetLogger {W : Type} (codex : Codex W) (w : Option W) (level : String) : Codex W :=
  { codex with logWriter := w, logLevel := level }

/-- `WithExecutablePath` from codex.go. -/
def WithExecutablePath {W : Type} (path : String) : CodexOption W :=
  fun codex => codex.SetExecutablePath path

/-- `WithLogger` from codex.go. -/
def WithLogger {W : Type} (w : Option W) (level : String) : CodexOption W :=
  fun codex => codex.SetLogger w level

/-- `New` from codex.go: defaults, then the options applied in order. -/
def New {W : Type} (options : List (CodexOption W)) : Codex W :=
  List.foldl (fun codex opt => opt codex)
    { executablePath := "codex", logWriter := none, logLevel := "info" } options

/-- The observable fields of the `exec.Cmd` built by `Codex.command`.  `dir`
has the Go zero value `""` (meaning: inherit the caller working directory);
`env = none` is Go `cmd.Env == nil` (inherit the environment). -/
structure Cmd (W : Type) where
  path : String
  args : List String
  dir : String := ""
  stderr : Option W := none
  env : Option (List String) := none

/-- The log levels accepted by the `switch` in `Codex.command`. -/
def validLogLevel (level : String) : Bool :=
  level == "error" || level == "warn" || level == "info" ||
    level == "debug" || level == "trace" || level == "off"

/-- `command` from codex.go: build the command; when a log writer is set,
validate the level, wire stderr to the writer, and prepend the RUST_LOG
entry to the inherited environment.  `environ` stands for `os.Environ()`. -/
def Codex.command {W : Type} (codex : Codex W) (environ : List String)
    (arg : List String) : Except String (Cmd W) :=
  let cmd : Cmd W := { path := codex.executablePath, args := arg }
  match codex.logWriter with
  | none => Except.ok cmd
  | some w =>
    if validLogLevel codex.logLevel then
      Except.ok { cmd with
        stderr := some w,
        env := some (("RUST_LOG=codex_core=" ++ codex.logLevel ++
          ",codex_tui=" ++ codex.logLevel) :: environ) }
    else
      Except.error "invalid log level"

/-- `Login` from login.go, with the mutex elided (it is modelled by the
trace semantics below): build the `login --api-key <key>` command and run
it via the `run` oracle. -/
def Codex.Login {W : Type} (codex : Codex W) (environ : List String)
    (run : Cmd W → Except String Unit) (apiKey : String) : Except String Unit :=
  match codex.command environ ["login", "--api-key", apiKey] with
  | Except.error e => Except.error e
  | Except.ok cmd => run cmd

/-- The `invokeOptions` struct: every field is a nilable pointer or map in
Go, hence `Option` here, all defaulting to `none` (the Go zero value). -/
structure invokeOptions where
  ApprovalPolicy : Option String := none
  BaseInstructions : Option String := none
  Config : Option (List (String × GoValue)) := none
  Cwd : Option String := none
  IncludePlanTool : Option Bool := none
  Model : Option String := none
  Profile : Option String := none
  Sandbox : Option String := none

/-- An `InvokeOption` is Go `func(*invokeOptions) error`: result state plus
optional error message. -/
abbrev InvokeOption := invokeOptions → invokeOptions × Option String

/-- `WithApprovalPolicy`: the `switch` accepts exactly untrusted,
on-failure, never; anything else is an error and no field is written. -/
def WithApprovalPolicy (approvalPolicy : String) : InvokeOption := fun o =>
  if approvalPolicy = "untrusted" ∨ approvalPolicy = "on-failure" ∨
      approvalPolicy = "never" then
    ({ o with ApprovalPolicy := some approvalPolicy }, none)
  else
    (o, some ("invalid approval-policy: " ++ approvalPolicy))

/-- `WithBaseInstructions`: unconditional. -/
def WithBaseInstructions (baseInstructions : String) : InvokeOption := fun o =>
  ({ o with BaseInstructions := some baseInstructions }, none)

/-- `WithConfig`: unconditional; the Go map argument may be nil (`none`). -/
def WithConfig (config : Option (List (String × GoValue))) : InvokeOption := fun o =>
  ({ o with Config := config }, none)

/-- `WithCwd`: unconditional. -/
def WithCwd (cwd : String) : InvokeOption := fun o =>
  ({ o with Cwd := some cwd }, none)

/-- `WithIncludePlanTool`: unconditional. -/
def WithIncludePlanTool (includePlanTool : Bool) : InvokeOption := fun o =>
  ({ o with IncludePlanTool := some includePlanTool }, none)

/-- `WithModel`: unconditional. -/
def WithModel (model : String) : InvokeOption := fun o =>
  ({ o with Model := some model }, none)

/-- `WithProfile`: unconditional. -/
def WithProfile (profile : String) : InvokeOption := fun o =>
  ({ o with Profile := some profile }, none)

/-- `WithSandbox`: the `switch` accepts exactly read-only, workspace-write,
danger-full-access; anything else is an error and no field is written. -/
def WithSandbox (sandbox : String) : InvokeOption := fun o =>
  if sandbox = "read-only" ∨ sandbox = "workspace-write" ∨
      sandbox = "danger-full-access" then
    ({ o with Sandbox := some sandbox }, none)
  else
    (o, some ("invalid sandbox: " ++ sandbox))

/-- The option-application loop at the top of `Invoke`: apply in order,
return on the first error (remaining options are not applied). -/
def applyOptions : List InvokeOption → invokeOptions → invokeOptions × Option String
  | [], o => (o, none)
  | opt :: rest, o =>
    match opt o with
    | (o1, none) => applyOptions rest o1
    | (o1, some e) => (o1, some e)

/-- One conditional insertion `if f != nil then arguments[key] = *f` of the
argument-map construction in `Invoke`. -/
def optArg {α : Type} (key : String) (val : α → GoValue) : Option α → List (String × GoValue)
  | some v => [(key, val v)]
  | none => []

/-- The argument map built in `Invoke`: always `prompt`, then each present
optional field under its hyphenated key, in source order.  `Cwd` is not
consulted here. -/
def buildArguments (prompt : String) (opts : invokeOptions) : List (String × GoValue) :=
  [("prompt", GoValue.str prompt)]
    ++ optArg "approval-policy" GoValue.str opts.ApprovalPolicy
    ++ optArg "base-instructions" GoValue.str opts.BaseInstructions
    ++ optArg "config" GoValue.configMap opts.Config
    ++ optArg "include-plan-tool" GoValue.bool opts.IncludePlanTool
    ++ optArg "model" GoValue.str opts.Model
    ++ optArg "profile" GoValue.str opts.Profile
    ++ optArg "sandbox" GoValue.str opts.Sandbox

/-- The `if opts.Cwd != nil then cmd.Dir = *opts.Cwd` step of `Invoke`. -/
def prepareCmd {W : Type} (cmd : Cmd W) (opts : invokeOptions) : Cmd W :=
  match opts.Cwd with
  | some cwd => { cmd with dir := cwd }
  | none => cmd

/-- One text content entry of an MCP tool-call response. -/
structure TextContent where
  Text : String

/-- The structured tool-call response: content list plus error flag. -/
structure CallToolResult where
  Content : List TextContent
  IsError : Bool

/-- The final step of `Invoke`: `text := res.Content[0].Text`, then the
`IsError` check.  `res.Content[0]` panics on an empty slice; the embedding
returns `none` in exactly that case. -/
def interpretResult (res : CallToolResult) : Option (Except String String) :=
  match res.Content.head? with
  | none => none
  | some c => some (if res.IsError then Except.error c.Text else Except.ok c.Text)

/-- `Invoke` from the invoke/options file: apply the options (first error
aborts), build the `mcp` command, set its working directory from `Cwd`,
hand the command and the argument map to the session oracle (covering
connect + CallTool, whose errors are both propagated verbatim), and
interpret the structured result.  `none` is the unguarded empty-content
panic. -/
def Codex.Invoke {W : Type} (codex : Codex W) (environ : List String)
    (session : Cmd W → List (String × GoValue) → Except String CallToolResult)
    (prompt : String) (options : List InvokeOption) : Option (Except String String) :=
  match applyOptions options {} with
  | (_, some e) => some (Except.error e)
  | (opts, none) =>
    match codex.command environ ["mcp"] with
    | Except.error e => some (Except.error e)
    | Except.ok cmd =>
      match session (prepareCmd cmd opts) (buildArguments prompt opts) with
      | Except.error e => some (Except.error e)
      | Except.ok res => interpretResult res

/-- Events of one `Login` call, read off login.go: acquire `authMutex`,
build the command, run the subprocess (start and end), release the mutex
(the deferred unlock fires on every return path). -/
inductive LoginEvent where
  | lock
  | cmdBuild
  | runStart
  | runEnd
  | unlock
deriving DecidableEq, Repr

/-- The event trace of one `Login` call.  When `command` succeeds the
subprocess runs; when it fails `Login` returns early and the deferred
unlock still fires.  A failing `cmd.Run` produces the same events as a
successful one. -/
def loginTrace (buildOk : Bool) : List LoginEvent :=
  if buildOk then
    [LoginEvent.lock, LoginEvent.cmdBuild, LoginEvent.runStart,
      LoginEvent.runEnd, LoginEvent.unlock]
  else
    [LoginEvent.lock, LoginEvent.cmdBuild, LoginEvent.unlock]

/-- Tag each event of a trace with the identifier of the goroutine
executing it. -/
def tagged (t : Bool) (es : List LoginEvent) : List (Bool × LoginEvent) :=
  es.map (fun e => (t, e))

/-- `sync.Mutex` semantics over a schedule of tagged events: `lock` only
succeeds when the mutex is free, `unlock` only by the holder; all other
events are unconstrained by the mutex itself. -/
def mutexOk (owner : Option Bool) : List (Bool × LoginEvent) → Bool
  | [] => true
  | (t, LoginEvent.lock) :: rest =>
    match owner with
    | none => mutexOk (some t) rest
    | some _ => false
  | (t, LoginEvent.unlock) :: rest =>
    match owner with
    | some o => o == t && mutexOk none rest
    | none => false
  | _ :: rest => mutexOk owner rest

/-- `s` is an interleaving of `xs` and `ys` (each kept in order). -/
inductive Interleaving {α : Type} : List α → List α → List α → Prop
  | nil : Interleaving [] [] []
  | left {x : α} {xs ys s : List α} :
      Interleaving xs ys s → Interleaving (x :: xs) ys (x :: s)
  | right {y : α} {xs ys s : List α} :
      Interleaving xs ys s → Interleaving xs (y :: ys) (y :: s)

/-- Fuelled enumeration of all interleavings of two lists; with fuel at
least the sum of the lengths it is exhaustive. -/
def interleavingsFuel {α : Type} : Nat → List α → List α → List (List α)
  | 0, xs, ys => [xs ++ ys]
  | _ + 1, [], ys => [ys]
  | _ + 1, x :: xs, [] => [x :: xs]
  | fuel + 1, x :: xs, y :: ys =>
    ((interleavingsFuel fuel xs (y :: ys)).map (fun s => x :: s)) ++
      ((interleavingsFuel fuel (x :: xs) ys).map (fun s => y :: s))

/-- All interleavings of two lists. -/
def interleavings {α : Type} (xs ys : List α) : List (List α) :=
  interleavingsFuel (xs.length + ys.length) xs ys

/-- Helper: `lookup` distributes over append, preferring the left list. -/
theorem lookup_append {α β : Type} [BEq α] (l1 l2 : List (α × β)) (k : α) :
    (l1 ++ l2).lookup k = ((l1.lookup k).or (l2.lookup k)) := by
  induction l1 with
  | nil => simp [List.lookup]
  | cons p l ih =>
    obtain ⟨a, b⟩ := p
    cases h : k == a with
    | true => simp [List.lookup, h]
    | false => simp [List.lookup, h, ih]

/-- Helper: `lookup` of a different key misses an `optArg` segment. -/
theorem lookup_optArg_ne {α : Type} (k key : String) (val : α → GoValue)
    (o : Option α) (h : (k == key) = false) : (optArg key val o).lookup k = none := by
  cases o <;> simp [optArg, List.lookup, h]

/-- Helper: `lookup` of its own key on an `optArg` segment returns the
mapped value. -/
theorem lookup_optArg_self {α : Type} (key : String) (val : α → GoValue)
    (o : Option α) : (optArg key val o).lookup key = o.map val := by
  cases o <;> simp [optArg, List.lookup]

/-- C1: `WithApprovalPolicy` accepts exactly untrusted/on-failure/never,
storing the value; any other string yields "invalid approval-policy: v"
and leaves the options unchanged.  `WithSandbox` behaves analogously with
read-only/workspace-write/danger-full-access and "invalid sandbox: v". -/
theorem option_enum_validation (v : String) (o : invokeOptions) :
    (v ≠ "untrusted" → v ≠ "on-failure" → v ≠ "never" →
      WithApprovalPolicy v o = (o, some ("invalid approval-policy: " ++ v))) ∧
    ((v = "untrusted" ∨ v = "on-failure" ∨ v = "never") →
      WithApprovalPolicy v o = ({ o with ApprovalPolicy := some v }, none)) ∧
    (v ≠ "read-only" → v ≠ "workspace-write" → v ≠ "danger-full-access" →
      WithSandbox v o = (o, some ("invalid sandbox: " ++ v))) ∧
    ((v = "read-only" ∨ v = "workspace-write" ∨ v = "danger-full-access") →
      WithSandbox v o = ({ o with Sandbox := some v }, none)) := by
  refine ⟨fun h1 h2 h3 => ?_, fun h => ?_, fun h1 h2 h3 => ?_, fun h => ?_⟩
  · rw [WithApprovalPolicy, if_neg]
    rintro (h | h | h) <;> contradiction
  · rw [WithApprovalPolicy, if_pos h]
  · rw [WithSandbox, if_neg]
    rintro (h | h | h) <;> contradiction
  · rw [WithSandbox, if_pos h]

/-- Witness for C1 at concrete inputs. -/
theorem option_enum_validation_witness :
    WithApprovalPolicy "bogus" {} =
      ({}, some ("invalid approval-policy: " ++ "bogus")) ∧
    WithSandbox "read-only" {} =
      ({ Sandbox := some "read-only" }, none) :=
  ⟨(option_enum_validation "bogus" {}).1
      (by decide) (by decide) (by decide),
   (option_enum_validation "read-only" {}).2.2.2 (Or.inl rfl)⟩

/-- C2: the argument map always binds "prompt" to the prompt; each present
optional field appears under its hyphenated key with exactly the stored
value, and an absent field contributes no key at all. -/
theorem invoke_arguments_mapping (prompt : String) (opts : invokeOptions) :
    (buildArguments prompt opts).lookup "prompt" = some (GoValue.str prompt) ∧
    ((buildArguments prompt opts).lookup "approval-policy" =
      opts.ApprovalPolicy.map GoValue.str) ∧
    ((buildArguments prompt opts).lookup "base-instructions" =
      opts.BaseInstructions.map GoValue.str) ∧
    ((buildArguments prompt opts).lookup "config" =
      opts.Config.map GoValue.configMap) ∧
    ((buildArguments prompt opts).lookup "include-plan-tool" =
      opts.IncludePlanTool.map GoValue.bool) ∧
    ((buildArguments prompt opts).lookup "model" =
      opts.Model.map GoValue.str) ∧
    ((buildArguments prompt opts).lookup "profile" =
      opts.Profile.map GoValue.str) ∧
    ((buildArguments prompt opts).lookup "sandbox" =
      opts.Sandbox.map GoValue.str) := by
  refine ⟨?_, ?_, ?_, ?_, ?_, ?_, ?_, ?_⟩ <;>
    simp [buildArguments, lookup_append, List.lookup,
      lookup_optArg_ne, lookup_optArg_self, Option.or] <;>
    cases opts.ApprovalPolicy <;> cases opts.BaseInstructions <;>
    cases opts.Config <;> cases opts.IncludePlanTool <;>
    cases opts.Model <;> cases opts.Profile <;> cases opts.Sandbox <;>
    simp [lookup_optArg_ne, lookup_optArg_self, Option.or]

/-- C4: the option loop applies options in caller order; the first failing
option aborts with its error and later options are not applied; on such a
failure `Invoke` returns exactly that error, for every client, environment
and session oracle (so no command is built and no process is reached). -/
theorem invoke_first_error_aborts :
    (∀ (opt : InvokeOption) (rest : List InvokeOption) (o o1 : invokeOptions)
      (e : String), opt o = (o1, some e) →
      applyOptions (opt :: rest) o = (o1, some e)) ∧
    (∀ (opt : InvokeOption) (rest : List InvokeOption) (o o1 : invokeOptions),
      opt o = (o1, none) →
      applyOptions (opt :: rest) o = applyOptions rest o1) ∧
    (∀ (W : Type) (codex : Codex W) (environ : List String)
      (session : Cmd W → List (String × GoValue) → Except String CallToolResult)
      (prompt : String) (options : List InvokeOption) (o1 : invokeOptions)
      (e : String), applyOptions options {} = (o1, some e) →
      codex.Invoke environ session prompt options = some (Except.error e)) := by
  refine ⟨fun opt rest o o1 e h => ?_, fun opt rest o o1 h => ?_,
    fun W codex environ session prompt options o1 e h => ?_⟩
  · simp [applyOptions, h]
  · simp [applyOptions, h]
  · simp [Codex.Invoke, h]

/-- Witness for C4 at a concrete failing option list. -/
theorem invoke_first_error_aborts_witness :
    (New ([] : List (CodexOption Unit))).Invoke []
      (fun _ _ => Except.ok { Content := [], IsError := false })
      "hello" [WithApprovalPolicy "bogus", WithModel "m"] =
      some (Except.error ("invalid approval-policy: " ++ "bogus")) :=
  invoke_first_error_aborts.2.2 Unit (New []) []
    (fun _ _ => Except.ok { Content := [], IsError := false })
    "hello" [WithApprovalPolicy "bogus", WithModel "m"] {}
    ("invalid approval-policy: " ++ "bogus") rfl

/-- C3: with a first content entry present, an error-flagged response makes
`Invoke` fail with exactly that entry text, an unflagged response succeeds
with that text; the interpretation depends only on the first entry and the
flag (later entries are ignored); and a default client's `Invoke` returns
exactly this interpretation of the session's response. -/
theorem invoke_result_interpretation (res : CallToolResult) (c : TextContent)
    (rest : List TextContent) (h : res.Content = c :: rest) :
    (res.IsError = true → interpretResult res = some (Except.error c.Text)) ∧
    (res.IsError = false → interpretResult res = some (Except.ok c.Text)) ∧
    (∀ res1 : CallToolResult, res1.Content.head? = res.Content.head? →
      res1.IsError = res.IsError → interpretResult res1 = interpretResult res) ∧
    (∀ (environ : List String) (prompt : String),
      (New ([] : List (CodexOption Unit))).Invoke environ
        (fun _ _ => Except.ok res) prompt [] = interpretResult res) := by
  refine ⟨fun he => ?_, fun he => ?_, fun res1 h1 h2 => ?_,
    fun environ prompt => ?_⟩
  · simp [interpretResult, h, he]
  · simp [interpretResult, h, he]
  · simp [interpretResult, h1, h2]
  · simp [Codex.Invoke, applyOptions, New, Codex.command, prepareCmd]

/-- Witness for C3 at a concrete error response. -/
theorem invoke_result_interpretation_witness :
    interpretResult { Content := [{ Text := "boom" }], IsError := true } =
      some (Except.error "boom") :=
  (invoke_result_interpretation
    { Content := [{ Text := "boom" }], IsError := true }
    { Text := "boom" } [] rfl).1 rfl

/-- C5: the cwd option never reaches the argument map (no "cwd" key, and
the map does not depend on the `Cwd` field at all); a present `Cwd` becomes
the working directory of the prepared command, an absent one leaves the
command untouched; commands built by `command` carry the default (empty)
working directory. -/
theorem invoke_cwd_handling {W : Type} (prompt : String) (opts : invokeOptions)
    (cmd : Cmd W) :
    (buildArguments prompt opts).lookup "cwd" = none ∧
    (∀ c : Option String,
      buildArguments prompt { opts with Cwd := c } = buildArguments prompt opts) ∧
    (∀ c : String, opts.Cwd = some c → (prepareCmd cmd opts).dir = c) ∧
    (opts.Cwd = none → prepareCmd cmd opts = cmd) ∧
    (∀ (codex : Codex W) (environ args : List String) (cmd0 : Cmd W),
      codex.command environ args = Except.ok cmd0 → cmd0.dir = "") := by
  refine ⟨?_, fun c => ?_, fun c hc => ?_, fun hc => ?_,
    fun codex environ args cmd0 h0 => ?_⟩
  · simp [buildArguments, lookup_append, List.lookup, lookup_optArg_ne,
      Option.or]
  · simp [buildArguments]
  · simp [prepareCmd, hc]
  · simp [prepareCmd, hc]
  · revert h0
    rw [Codex.command]
    cases codex.logWriter with
    | none => intro h0; cases h0; rfl
    | some w =>
      simp only []
      by_cases hv : validLogLevel codex.logLevel
      · rw [if_pos hv]; intro h0; cases h0; rfl
      · rw [if_neg hv]; intro h0; cases h0

/-- Witness for C5 at a concrete supplied cwd. -/
theorem invoke_cwd_handling_witness :
    (prepareCmd { path := "codex", args := ["mcp"] }
      { Cwd := some "/tmp" } : Cmd Unit).dir = "/tmp" :=
  (invoke_cwd_handling "p" { Cwd := some "/tmp" }
    { path := "codex", args := ["mcp"] }).2.2.1 "/tmp" rfl

/-- C8: the extraction of the first content entry is unguarded: on a
response with an empty content list `interpretResult` hits its undefined
branch (`none`, the Go panic), it is defined exactly when the content list
is non-empty, and a full `Invoke` whose session returns an empty-content
response ends in that branch. -/
theorem empty_content_unguarded :
    (∀ b : Bool, interpretResult { Content := [], IsError := b } = none) ∧
    (∀ res : CallToolResult,
      (interpretResult res).isSome = true ↔ res.Content ≠ []) ∧
    (∀ (environ : List String) (prompt : String) (b : Bool),
      (New ([] : List (CodexOption Unit))).Invoke environ
        (fun _ _ => Except.ok { Content := [], IsError := b }) prompt [] =
        none) := by
  refine ⟨fun b => rfl, fun res => ?_, fun environ prompt b => ?_⟩
  · cases hres : res.Content with
    | nil => simp [interpretResult, hres]
    | cons c rest => simp [interpretResult, hres]
  · simp [Codex.Invoke, applyOptions, New, Codex.command, prepareCmd,
      interpretResult]

/-- Witness for C8 at a concrete empty-content response. -/
theorem empty_content_unguarded_witness :
    interpretResult { Content := [], IsError := true } = none :=
  empty_content_unguarded.1 true

/-- C6: with a log writer configured and a log level outside the accepted
set, `command` fails with exactly "invalid log level"; hence `Login` fails
the same way for every run oracle (no process is run), and `Invoke` — once
its options pass — fails the same way for every session oracle. -/
theorem invalid_log_level_fails {W : Type} (codex : Codex W) (w : W)
    (hw : codex.logWriter = some w) (hl : validLogLevel codex.logLevel = false) :
    (∀ environ args : List String,
      codex.command environ args = Except.error "invalid log level") ∧
    (∀ (environ : List String) (run : Cmd W → Except String Unit)
      (apiKey : String),
      codex.Login environ run apiKey = Except.error "invalid log level") ∧
    (∀ (environ : List String)
      (session : Cmd W → List (String × GoValue) → Except String CallToolResult)
      (prompt : String) (options : List InvokeOption) (opts : invokeOptions),
      applyOptions options {} = (opts, none) →
      codex.Invoke environ session prompt options =
        some (Except.error "invalid log level")) := by
  have hcmd : ∀ environ args : List String,
      codex.command environ args = Except.error "invalid log level" := by
    intro environ args
    rw [Codex.command, hw]
    simp [hl]
  refine ⟨hcmd, fun environ run apiKey => ?_,
    fun environ session prompt options opts hopts => ?_⟩
  · rw [Codex.Login, hcmd]
  · rw [Codex.Invoke, hopts]
    simp [hcmd]

/-- Witness for C6 at a concrete misconfigured client. -/
theorem invalid_log_level_fails_witness :
    ({ logWriter := some (), logLevel := "verbose" } : Codex Unit).Login []
      (fun _ => Except.ok ()) "key" = Except.error "invalid log level" :=
  (invalid_log_level_fails
    ({ logWriter := some (), logLevel := "verbose" } : Codex Unit) () rfl
    rfl).2.1 [] (fun _ => Except.ok ()) "key"

/-- C7: with a log writer configured and a valid log level, `command`
succeeds with stderr wired to the writer and an environment that is the
single RUST_LOG entry (naming the level for codex_core and codex_tui)
prepended to the inherited environment, so the environment contains that
entry together with every inherited variable. -/
theorem valid_log_level_wiring {W : Type} (codex : Codex W) (w : W)
    (environ args : List String) (hw : codex.logWriter = some w)
    (hl : validLogLevel codex.logLevel = true) :
    codex.command environ args = Except.ok
      { path := codex.executablePath, args := args, dir := "",
        stderr := some w,
        env := some (("RUST_LOG=codex_core=" ++ codex.logLevel ++
          ",codex_tui=" ++ codex.logLevel) :: environ) } ∧
    (∀ cmd : Cmd W, codex.command environ args = Except.ok cmd →
      cmd.stderr = some w ∧
      ∃ envList : List String, cmd.env = some envList ∧
        ("RUST_LOG=codex_core=" ++ codex.logLevel ++
          ",codex_tui=" ++ codex.logLevel) ∈ envList ∧
        ∀ v ∈ environ, v ∈ envList) := by
  have hcmd : codex.command environ args = Except.ok
      { path := codex.executablePath, args := args, dir := "",
        stderr := some w,
        env := some (("RUST_LOG=codex_core=" ++ codex.logLevel ++
          ",codex_tui=" ++ codex.logLevel) :: environ) } := by
    rw [Codex.command, hw]
    simp [hl]
  refine ⟨hcmd, fun cmd h0 => ?_⟩
  rw [hcmd] at h0
  cases h0
  refine ⟨rfl, _, rfl, List.mem_cons_self _ _, fun v hv => List.mem_cons_of_mem _ hv⟩

/-- Witness for C7 at a concrete client with debug level. -/
theorem valid_log_level_wiring_witness :
    ({ logWriter := some (), logLevel := "debug" } : Codex Unit).command
      ["PATH=/bin"] ["mcp"] = Except.ok
      { path := "codex", args := ["mcp"], dir := "",
        stderr := some (),
        env := some (("RUST_LOG=codex_core=" ++ "debug" ++
          ",codex_tui=" ++ "debug") :: ["PATH=/bin"]) } :=
  (valid_log_level_wiring
    ({ logWriter := some (), logLevel := "debug" } : Codex Unit) ()
    ["PATH=/bin"] ["mcp"] rfl rfl).1

/-- C10: with no log writer configured, the log level is never validated:
for every client with `logWriter = none` (any level string), `command`
succeeds with default stderr and environment, and `Login` simply runs the
built command, so no "invalid log level" error can arise from the client
itself. -/
theorem no_logger_no_validation {W : Type} (codex : Codex W)
    (h : codex.logWriter = none) :
    (∀ environ args : List String,
      codex.command environ args = Except.ok
        { path := codex.executablePath, args := args, dir := "",
          stderr := none, env := none }) ∧
    (∀ (environ : List String) (run : Cmd W → Except String Unit)
      (apiKey : String),
      codex.Login environ run apiKey = run
        { path := codex.executablePath,
          args := ["login", "--api-key", apiKey], dir := "",
          stderr := none, env := none }) := by
  have hcmd : ∀ environ args : List String,
      codex.command environ args = Except.ok
        { path := codex.executablePath, args := args, dir := "",
          stderr := none, env := none } := by
    intro environ args
    rw [Codex.command, h]
  refine ⟨hcmd, fun environ run apiKey => ?_⟩
  rw [Codex.Login, hcmd]

/-- Witness for C10 at a concrete client with a nonsense level and no
writer. -/
theorem no_logger_no_validation_witness :
    ({ logLevel := "totally-bogus" } : Codex Unit).command [] ["mcp"] =
      Except.ok
        { path := "codex", args := ["mcp"], dir := "",
          stderr := none, env := none } :=
  (no_logger_no_validation ({ logLevel := "totally-bogus" } : Codex Unit)
    rfl).1 [] ["mcp"]

/-- Helper: an interleaving with an empty right component is the left
component. -/
theorem interleaving_nil_right {α : Type} {xs ys s : List α}
    (h : Interleaving xs ys s) (hys : ys = []) : s = xs := by
  induction h with
  | nil => rfl
  | left h ih => rw [ih hys]
  | right h ih => simp at hys

/-- Helper: an interleaving with an empty left component is the right
component. -/
theorem interleaving_nil_left {α : Type} {xs ys s : List α}
    (h : Interleaving xs ys s) (hxs : xs = []) : s = ys := by
  induction h with
  | nil => rfl
  | left h ih => simp at hxs
  | right h ih => rw [ih hxs]

/-- Helper: with enough fuel, `interleavingsFuel` enumerates every
interleaving. -/
theorem interleavings_complete {α : Type} {xs ys s : List α}
    (h : Interleaving xs ys s) :
    ∀ fuel : Nat, xs.length + ys.length ≤ fuel →
      s ∈ interleavingsFuel fuel xs ys := by
  induction h with
  | nil =>
    intro fuel hf
    cases fuel with
    | zero => simp [interleavingsFuel]
    | succ n => simp [interleavingsFuel]
  | left h ih =>
    intro fuel hf
    cases fuel with
    | zero => simp at hf
    | succ n =>
      rename_i x xs ys s
      cases ys with
      | nil =>
        have hsx := interleaving_nil_right h rfl
        simp [interleavingsFuel, hsx]
      | cons y ys =>
        apply List.mem_append_left
        apply List.mem_map_of_mem
        apply ih
        simp at hf ⊢
        omega
  | right h ih =>
    intro fuel hf
    cases fuel with
    | zero => simp at hf
    | succ n =>
      rename_i y xs ys s
      cases xs with
      | nil =>
        have hsy := interleaving_nil_left h rfl
        simp [interleavingsFuel, hsy]
      | cons x xs =>
        apply List.mem_append_right
        apply List.mem_map_of_mem
        apply ih
        simp at hf ⊢
        omega

/-- Helper: the all-right interleaving. -/
theorem interleaving_of_nil {α : Type} (ys : List α) : Interleaving [] ys ys := by
  induction ys with
  | nil => exact Interleaving.nil
  | cons y ys ih => exact Interleaving.right ih

/-- Helper: running the first list to completion and then the second is an
interleaving. -/
theorem interleaving_append {α : Type} (xs ys : List α) :
    Interleaving xs ys (xs ++ ys) := by
  induction xs with
  | nil => exact interleaving_of_nil ys
  | cons x xs ih => exact Interleaving.left ih

set_option maxRecDepth 100000 in
set_option maxHeartbeats 1000000 in
/-- C9: a `Login` call acquires the lock as its first event and releases it
as its last event on every exit path (command error or run), and in every
mutex-respecting interleaving of two `Login` calls the two executions do
not overlap at all: one runs to completion before the other starts, so at
most one login subprocess runs at a time per client. -/
theorem login_mutual_exclusion (a b : Bool) (s : List (Bool × LoginEvent))
    (h : Interleaving (tagged false (loginTrace a)) (tagged true (loginTrace b)) s)
    (hm : mutexOk none s = true) :
    ((loginTrace a).head? = some LoginEvent.lock ∧
      (loginTrace a).getLast? = some LoginEvent.unlock) ∧
    (s = tagged false (loginTrace a) ++ tagged true (loginTrace b) ∨
      s = tagged true (loginTrace b) ++ tagged false (loginTrace a)) := by
  have hs : s ∈ interleavings (tagged false (loginTrace a))
      (tagged true (loginTrace b)) :=
    interleavings_complete h _ (le_refl _)
  clear h
  revert hm
  revert hs
  revert s
  cases a <;> cases b <;> decide

/-- Witness for C9 at the sequential schedule of two successful logins. -/
theorem login_mutual_exclusion_witness :
    mutexOk none
      (tagged false (loginTrace true) ++ tagged true (loginTrace true)) = true ∧
    (tagged false (loginTrace true) ++ tagged true (loginTrace true) =
        tagged false (loginTrace true) ++ tagged true (loginTrace true) ∨
      tagged false (loginTrace true) ++ tagged true (loginTrace true) =
        tagged true (loginTrace true) ++ tagged false (loginTrace true)) :=
  ⟨by decide,
   (login_mutual_exclusion true true _ (interleaving_append _ _) (by decide)).2⟩

end CodexGo
